import Mathlib

/-!
Verification development for the in-memory coordination layer of a
webhook-driven photo-upload bot (main.go): a time-bounded idempotency
cache (MessageCache), a per-scope statistics store (GroupCache), and the
dispatch path connecting them (handleFileMessage and the file branch of
callbackHandler).

Conventions of the shallow embedding:
* Go time.Time values are modelled as Nat nanosecond counts; the Go test
  time.Since(t) > 24*time.Hour becomes retentionWindow < now - t with
  truncated Nat subtraction, which agrees with Go because a negative
  duration is never greater than 24 hours.
* A Go map[string]V is modelled as the function String → Option V: map
  assignment overwrites the binding, map lookup reads the current
  binding, and delete sets it to none. For GroupCache, whose aggregate
  read must enumerate all entries, the map is modelled instead as an
  association list in which an update replaces the first binding of the
  key in place and an insert appends at the end; Go iterates maps in an
  unspecified order, so the list order of scopes is one of the orders Go
  may produce.
* Methods that only read state (IsProcessed, GetStats, GetGlobalStats)
  are modelled as pure functions; this is faithful because the Go
  methods take only the read half of an RWMutex and perform no writes.
* The external upload pipeline (handleFile: LINE blob download plus the
  Drive create call) is abstracted by a Boolean uploadOk recording
  whether it returned nil, since the claims treat it as an external
  collaborator that either succeeds or fails.
-/

/-- The retention window of the idempotency cache: 24 hours in
nanoseconds, matching the Go duration 24 * time.Hour (main.go line 49). -/
def retentionWindow : Nat := 24 * 60 * 60 * 1000000000

/-- Embedding of MessageCache (main.go lines 24-33): a map from message
id to the time stored by MarkProcessed. -/
structure MessageCache where
  processed : String → Option Nat

/-- Embedding of NewMessageCache (main.go lines 29-33): empty map. -/
def NewMessageCache : MessageCache := ⟨fun _ => none⟩

/-- Embedding of MessageCache.IsProcessed (main.go lines 35-40): a pure
map lookup under the read lock; it performs no mutation. -/
def MessageCache.IsProcessed (c : MessageCache) (messageID : String) : Bool :=
  (c.processed messageID).isSome

/-- Embedding of MessageCache.MarkProcessed (main.go lines 42-53): store
the current time under messageID (overwriting any previous binding),
then sweep every entry of the map whose age exceeds 24 hours. The sweep
ranges over the just-updated map, so the fresh entry is examined too but
survives because its age is zero. -/
def MessageCache.MarkProcessed (c : MessageCache) (messageID : String) (now : Nat) :
    MessageCache :=
  let inserted : String → Option Nat :=
    fun id => if id = messageID then some now else c.processed id
  ⟨fun id =>
    match inserted id with
    | some t => if retentionWindow < now - t then none else some t
    | none => none⟩

/-- Folding MarkProcessed over a list of (id, time) writes starting from
the fresh cache. -/
def runCache (ops : List (String × Nat)) : MessageCache :=
  ops.foldl (fun c p => c.MarkProcessed p.1 p.2) NewMessageCache

/-- Pointwise description of the map after a MarkProcessed call: the
marked id is bound to the call time (the fresh entry always survives the
sweep), every other id keeps its binding exactly when its age at the
call does not exceed the retention window. -/
theorem markProcessed_lookup (c : MessageCache) (id : String) (now : Nat) (q : String) :
    (c.MarkProcessed id now).processed q =
      if q = id then some now
      else
        match c.processed q with
        | some t => if retentionWindow < now - t then none else some t
        | none => none := by
  unfold MessageCache.MarkProcessed
  by_cases h : q = id <;> simp [h]

theorem runCache_not_mem_aux (ops : List (String × Nat)) :
    ∀ (c : MessageCache) (m : String), c.processed m = none →
      m ∉ ops.map Prod.fst →
      ((ops.foldl (fun c p => c.MarkProcessed p.1 p.2) c).processed m = none) := by
  induction ops with
  | nil => intro c m h _; simpa using h
  | cons hd tl ih =>
      intro c m h hmem
      simp only [List.map_cons, List.mem_cons] at hmem
      push_neg at hmem
      simp only [List.foldl_cons]
      exact ih _ m (by rw [markProcessed_lookup]; simp [hmem.1, h]) hmem.2

theorem processed_persists (ws : List (String × Nat)) :
    ∀ (c : MessageCache) (m : String) (t : Nat),
      (∃ t0, t ≤ t0 ∧ c.processed m = some t0) →
      (∀ w ∈ ws, t ≤ w.2 ∧ w.2 - t ≤ retentionWindow) →
      ∃ t1, t ≤ t1 ∧
        ((ws.foldl (fun c p => c.MarkProcessed p.1 p.2) c).processed m = some t1) := by
  induction ws with
  | nil => intro c m t h _; simpa using h
  | cons hd tl ih =>
      intro c m t h hw
      obtain ⟨t0, ht0, hc⟩ := h
      have hhd := hw hd (List.mem_cons_self hd tl)
      simp only [List.foldl_cons]
      refine ih _ m t ?_ (fun w hwmem => hw w (List.mem_cons_of_mem hd hwmem))
      rw [markProcessed_lookup]
      by_cases hm : m = hd.1
      · exact ⟨hd.2, hhd.1, by simp [hm]⟩
      · refine ⟨t0, ht0, ?_⟩
        have hle : hd.2 - t0 ≤ hd.2 - t := Nat.sub_le_sub_left ht0 hd.2
        have : ¬ retentionWindow < hd.2 - t0 :=
          Nat.not_lt.mpr (le_trans hle hhd.2)
        simp [hm, hc, this]

/-- C6: an identifier is not processed in any state reachable without
marking it; it is processed immediately after MarkProcessed; and it
stays processed across any further writes as long as each write happens
no later than the retention window after the mark. IsProcessed itself is
a pure lookup in the model, matching the source method, which takes only
a read lock and never mutates the map. -/
theorem isProcessed_lifecycle (ops ws : List (String × Nat)) (m : String)
    (c : MessageCache) (now t : Nat) :
    (m ∉ ops.map Prod.fst → (runCache ops).IsProcessed m = false)
    ∧ (c.MarkProcessed m now).IsProcessed m = true
    ∧ ((∀ w ∈ ws, t ≤ w.2 ∧ w.2 - t ≤ retentionWindow) →
        (ws.foldl (fun c p => c.MarkProcessed p.1 p.2) (c.MarkProcessed m t)).IsProcessed m
          = true) := by
  refine ⟨?_, ?_, ?_⟩
  · intro hmem
    have := runCache_not_mem_aux ops NewMessageCache m rfl hmem
    simp [runCache, MessageCache.IsProcessed, this]
  · simp [MessageCache.IsProcessed, markProcessed_lookup]
  · intro hw
    obtain ⟨t1, _, hl⟩ := processed_persists ws (c.MarkProcessed m t) m t
      ⟨t, le_refl t, by simp [markProcessed_lookup]⟩ hw
    simp [MessageCache.IsProcessed, hl]

/-- Witness for isProcessed_lifecycle at concrete inputs. -/
theorem isProcessed_lifecycle_witness :
    (("m" : String) ∉ ([("a", 1)] : List (String × Nat)).map Prod.fst)
    ∧ (runCache [("a", 1)]).IsProcessed "m" = false
    ∧ (NewMessageCache.MarkProcessed "m" 0).IsProcessed "m" = true
    ∧ (([("b", 2)] : List (String × Nat)).foldl (fun c p => c.MarkProcessed p.1 p.2)
        (NewMessageCache.MarkProcessed "m" 1)).IsProcessed "m" = true :=
  ⟨by decide,
   (isProcessed_lifecycle [("a", 1)] [("b", 2)] "m" NewMessageCache 0 1).1 (by decide),
   (isProcessed_lifecycle [("a", 1)] [("b", 2)] "m" NewMessageCache 0 1).2.1,
   (isProcessed_lifecycle [("a", 1)] [("b", 2)] "m" NewMessageCache 0 1).2.2 (by decide)⟩

/-- C5: MarkProcessed records the id and, in the same write, sweeps
exactly the entries whose age exceeds 24 hours at the time of the call
(the pointwise description below); consequently an entry marked at time
T is unreachable after a MarkProcessed call for a different id 25 hours
later. Removal can only happen during such a write because MarkProcessed
is the only operation of the source that mutates the map. -/
theorem markProcessed_sweeps (c : MessageCache) (id q m : String) (now T : Nat)
    (hm : m ≠ id) :
    ((c.MarkProcessed id now).processed q =
      if q = id then some now
      else
        match c.processed q with
        | some t => if retentionWindow < now - t then none else some t
        | none => none)
    ∧ ((c.MarkProcessed m T).MarkProcessed id
        (T + 25 * 60 * 60 * 1000000000)).IsProcessed m = false := by
  refine ⟨markProcessed_lookup c id now q, ?_⟩
  simp only [MessageCache.IsProcessed, markProcessed_lookup, hm, if_false, ite_false]
  norm_num [retentionWindow]

/-- Witness for markProcessed_sweeps at concrete inputs. -/
theorem markProcessed_sweeps_witness :
    (("a" : String) ≠ "b")
    ∧ (((NewMessageCache.MarkProcessed "b" 5).processed "q" =
        if ("q" : String) = "b" then some 5
        else
          match NewMessageCache.processed "q" with
          | some t => if retentionWindow < 5 - t then none else some t
          | none => none)
      ∧ ((NewMessageCache.MarkProcessed "a" 7).MarkProcessed "b"
          (7 + 25 * 60 * 60 * 1000000000)).IsProcessed "a" = false) :=
  ⟨by decide, markProcessed_sweeps NewMessageCache "b" "q" "a" 5 7 (by decide)⟩

/-- Counterexample to C8: marking the same id twice stores the time of
the second call, not the first. After MarkProcessed("a") at time 10 and
again at time 20, the stored timestamp is 20. -/
theorem markProcessed_overwrites_cex :
    ((NewMessageCache.MarkProcessed "a" 10).MarkProcessed "a" 20).processed "a" = some 20
    ∧ ((NewMessageCache.MarkProcessed "a" 10).MarkProcessed "a" 20).processed "a"
        ≠ some 10 := by
  constructor <;> decide

/-- C8 amended: the cache stores the time of the most recent
MarkProcessed call for an id; a second call overwrites the stored
timestamp, so retention is measured from the latest mark. -/
theorem markProcessed_stores_latest (c : MessageCache) (id : String) (t1 t2 : Nat) :
    ((c.MarkProcessed id t1).MarkProcessed id t2).processed id = some t2 := by
  simp [markProcessed_lookup]

/-- Embedding of FileInfo (main.go lines 128-131). -/
structure FileInfo where
  name : String
  timestamp : Nat
deriving DecidableEq

/-- Embedding of GroupStats (main.go lines 133-138); the per-record lock
is a runtime artefact and carries no data. -/
structure GroupStats where
  totalUploads : Nat
  lastUpload : Nat
  recentFiles : List FileInfo
deriving DecidableEq

/-- Embedding of GroupCache (main.go lines 140-143): the map from scope
key to its stats record, as an association list (see the header note on
map iteration order). -/
structure GroupCache where
  stats : List (String × GroupStats)
deriving DecidableEq

/-- Embedding of NewGroupCache (main.go lines 145-149): empty map. -/
def NewGroupCache : GroupCache := ⟨[]⟩

/-- Map assignment on the association list: replace the first binding of
the key in place, or append a new binding when the key is absent. -/
def setStats : List (String × GroupStats) → String → GroupStats → List (String × GroupStats)
  | [], k, v => [(k, v)]
  | (k0, v0) :: rest, k, v =>
      if k0 = k then (k, v) :: rest else (k0, v0) :: setStats rest k v

/-- Map lookup on the association list. -/
def GroupCache.findStats (c : GroupCache) (groupID : String) : Option GroupStats :=
  (c.stats.find? (fun p => p.1 == groupID)).map Prod.snd

/-- Embedding of GroupCache.AddUploadedFile (main.go lines 167-193):
find-or-create the scope record, increment its counter, set the last
upload time to now, prepend the new file, and truncate the recent list
to the first 5 entries when it exceeds 5. -/
def GroupCache.AddUploadedFile (c : GroupCache) (groupID fileName : String) (now : Nat) :
    GroupCache :=
  let stats := (c.findStats groupID).getD
    { totalUploads := 0, lastUpload := 0, recentFiles := [] }
  let newFile : FileInfo := { name := fileName, timestamp := now }
  let rf := newFile :: stats.recentFiles
  { stats := setStats c.stats groupID
      { totalUploads := stats.totalUploads + 1
        lastUpload := now
        recentFiles := if 5 < rf.length then rf.take 5 else rf } }

/-- Embedding of GroupCache.GetStats (main.go lines 195-205): a pure
read returning the scope snapshot, or the zero snapshot when the scope
has no record; it never inserts anything. -/
def GroupCache.GetStats (c : GroupCache) (groupID : String) : Nat × Nat × List FileInfo :=
  match c.findStats groupID with
  | some stats => (stats.totalUploads, stats.lastUpload, stats.recentFiles)
  | none => (0, 0, [])

/-- The comparator of the sort in GetGlobalStats, as the sortedness
order it establishes: Go sorts with less i j given by
Timestamp(i).After(Timestamp(j)), so in the sorted output every earlier
element has a timestamp greater than or equal to every later one. -/
def fileGE (a b : FileInfo) : Prop := b.timestamp ≤ a.timestamp

instance : DecidableRel fileGE := fun a b => Nat.decLe b.timestamp a.timestamp

instance : IsTotal FileInfo fileGE :=
  ⟨fun a b => Nat.le_total b.timestamp a.timestamp⟩

instance : IsTrans FileInfo fileGE :=
  ⟨fun _ _ _ hab hbc => Nat.le_trans hbc hab⟩

/-- Embedding of GroupCache.GetGlobalStats (main.go lines 208-238): fold
over every scope record summing the counters, taking the latest last
upload time (strictly-after comparison starting from the zero time), and
concatenating the recent lists; then sort all collected files newest
first and keep the first 5. Go sort.Slice guarantees only sortedness
with respect to the comparator (it is unstable); the model realises it
with insertion sort, one of the permitted outcomes. -/
def GroupCache.GetGlobalStats (c : GroupCache) : Nat × Nat × List FileInfo :=
  let totalUploads := c.stats.foldl (fun acc p => acc + p.2.totalUploads) 0
  let lastUpload := c.stats.foldl
    (fun acc p => if acc < p.2.lastUpload then p.2.lastUpload else acc) 0
  let allFiles := c.stats.foldl (fun acc p => acc ++ p.2.recentFiles) []
  let sorted := List.insertionSort fileGE allFiles
  (totalUploads, lastUpload, if 5 < sorted.length then sorted.take 5 else sorted)

/-- Folding AddUploadedFile over (fileName, time) pairs for one fixed
scope, starting from the fresh store. -/
def runScope (ops : List (String × Nat)) (s : String) : GroupCache :=
  ops.foldl (fun g p => g.AddUploadedFile s p.1 p.2) NewGroupCache

/-- Folding AddUploadedFile over (scope, fileName, time) triples,
starting from the fresh store. -/
def runMixed (ops : List (String × String × Nat)) : GroupCache :=
  ops.foldl (fun g p => g.AddUploadedFile p.1 p.2.1 p.2.2) NewGroupCache

/-- Embedding of the stats selection in the /stats branch of
handleCommand (main.go lines 67-78): a non-empty group id reads that
group snapshot, an empty group id reads the global aggregate. -/
def statsForReply (groupCache : GroupCache) (groupID : String) : Nat × Nat × List FileInfo :=
  if groupID ≠ "" then groupCache.GetStats groupID else groupCache.GetGlobalStats

theorem find?_setStats_self (l : List (String × GroupStats)) (k : String) (v : GroupStats) :
    (setStats l k v).find? (fun p => p.1 == k) = some (k, v) := by
  induction l with
  | nil => simp [setStats]
  | cons hd tl ih =>
      obtain ⟨k0, v0⟩ := hd
      by_cases h : k0 = k
      · simp [setStats, h]
      · simp [setStats, h, List.find?_cons, ih]

theorem find?_setStats_other (l : List (String × GroupStats)) (k : String) (v : GroupStats)
    (q : String) (hq : q ≠ k) :
    (setStats l k v).find? (fun p => p.1 == q) = l.find? (fun p => p.1 == q) := by
  induction l with
  | nil => simp [setStats, Ne.symm hq]
  | cons hd tl ih =>
      obtain ⟨k0, v0⟩ := hd
      by_cases h : k0 = k
      · subst h
        simp [setStats, Ne.symm hq]
      · by_cases h0 : k0 = q
        · subst h0
          simp [setStats, h]
        · simp [setStats, h, h0, ih]

theorem if_take_five {α : Type} (l : List α) :
    (if 5 < l.length then l.take 5 else l) = l.take 5 := by
  by_cases h : 5 < l.length
  · simp [h]
  · simp [h, List.take_of_length_le (Nat.le_of_not_lt h)]

theorem getStats_add_self (gc : GroupCache) (s f : String) (t : Nat) :
    (gc.AddUploadedFile s f t).GetStats s =
      ((gc.GetStats s).1 + 1, t,
        ({ name := f, timestamp := t } :: (gc.GetStats s).2.2).take 5) := by
  unfold GroupCache.AddUploadedFile GroupCache.GetStats
  simp only [GroupCache.findStats, find?_setStats_self, Option.map_some]
  cases h : gc.findStats s with
  | some st =>
      simp only [GroupCache.findStats] at h
      simp [h, if_take_five]
  | none =>
      simp only [GroupCache.findStats] at h
      simp [h, if_take_five]

theorem getStats_add_other (gc : GroupCache) (s0 s f : String) (t : Nat) (h : s0 ≠ s) :
    (gc.AddUploadedFile s f t).GetStats s0 = gc.GetStats s0 := by
  unfold GroupCache.AddUploadedFile GroupCache.GetStats
  simp [GroupCache.findStats, find?_setStats_other _ _ _ _ h]

/-- Result of handleFileMessage: the idempotency cache after the call,
whether the upload pipeline was invoked, and whether an error was
returned to the caller. -/
structure HandleResult where
  cache : MessageCache
  uploadAttempted : Bool
  errored : Bool

/-- Embedding of handleFileMessage (main.go lines 429-462) for a
file-bearing message whose id has been extracted (the unsupported-type
branch returns an error before any cache access and is outside the
claims): when the id is already processed, return nil without touching
anything; otherwise run the upload pipeline (abstracted by uploadOk);
on failure return the error without marking; on success mark the id
processed and return nil. -/
def handleFileMessage (messageCache : MessageCache) (messageID : String)
    (uploadOk : Bool) (now : Nat) : HandleResult :=
  if messageCache.IsProcessed messageID then
    { cache := messageCache, uploadAttempted := false, errored := false }
  else if uploadOk then
    { cache := messageCache.MarkProcessed messageID now
      uploadAttempted := true, errored := false }
  else
    { cache := messageCache, uploadAttempted := true, errored := true }

/-- Combined state after the dispatcher handled one file-bearing event. -/
structure EventOutcome where
  messageCache : MessageCache
  groupCache : GroupCache
  uploadAttempted : Bool
  errored : Bool

/-- Embedding of the file branch of callbackHandler (main.go lines
629-657): call handleFileMessage; on a non-nil error skip the event
(continue), otherwise record the upload into the stats store under the
scope key, substituting the sentinel "direct" for an empty group id. -/
def processFileEvent (mc : MessageCache) (gc : GroupCache)
    (groupID messageID fileName : String) (uploadOk : Bool) (now : Nat) : EventOutcome :=
  let r := handleFileMessage mc messageID uploadOk now
  if r.errored then
    { messageCache := r.cache, groupCache := gc
      uploadAttempted := r.uploadAttempted, errored := true }
  else
    let trackingGroupID := if groupID = "" then "direct" else groupID
    { messageCache := r.cache
      groupCache := gc.AddUploadedFile trackingGroupID fileName now
      uploadAttempted := r.uploadAttempted, errored := false }

/-- C2: when the upload pipeline fails for a not-yet-processed id, the
dispatcher leaves both caches exactly as they were, the id stays
unprocessed, and a redelivery of the same id invokes the upload pipeline
again. -/
theorem upload_failure_leaves_caches (mc : MessageCache) (gc : GroupCache)
    (gid id fn : String) (now now2 : Nat) (u2 : Bool)
    (h : mc.IsProcessed id = false) :
    (processFileEvent mc gc gid id fn false now).uploadAttempted = true
    ∧ (processFileEvent mc gc gid id fn false now).messageCache = mc
    ∧ (processFileEvent mc gc gid id fn false now).messageCache.IsProcessed id = false
    ∧ (processFileEvent mc gc gid id fn false now).groupCache = gc
    ∧ (processFileEvent (processFileEvent mc gc gid id fn false now).messageCache
        (processFileEvent mc gc gid id fn false now).groupCache
        gid id fn u2 now2).uploadAttempted = true := by
  cases u2 <;> simp [processFileEvent, handleFileMessage, h]

/-- Witness for upload_failure_leaves_caches at concrete inputs. -/
theorem upload_failure_leaves_caches_witness :
    NewMessageCache.IsProcessed "x123" = false
    ∧ ((processFileEvent NewMessageCache NewGroupCache "g" "x123" "a.jpg" false 1).uploadAttempted
        = true
      ∧ (processFileEvent NewMessageCache NewGroupCache "g" "x123" "a.jpg" false 1).messageCache
        = NewMessageCache
      ∧ (processFileEvent NewMessageCache NewGroupCache "g" "x123" "a.jpg"
          false 1).messageCache.IsProcessed "x123" = false
      ∧ (processFileEvent NewMessageCache NewGroupCache "g" "x123" "a.jpg" false 1).groupCache
        = NewGroupCache
      ∧ (processFileEvent
          (processFileEvent NewMessageCache NewGroupCache "g" "x123" "a.jpg" false 1).messageCache
          (processFileEvent NewMessageCache NewGroupCache "g" "x123" "a.jpg" false 1).groupCache
          "g" "x123" "a.jpg" true 2).uploadAttempted = true) :=
  ⟨by decide,
   upload_failure_leaves_caches NewMessageCache NewGroupCache "g" "x123" "a.jpg" 1 2 true
     (by decide)⟩

/-- The outcome of a first, successful delivery of file message id m1 in
scope group1. -/
def dupFirstDelivery : EventOutcome :=
  processFileEvent NewMessageCache NewGroupCache "group1" "m1" "a.jpg" true 1

/-- The outcome of redelivering the same message id afterwards. -/
def dupSecondDelivery : EventOutcome :=
  processFileEvent dupFirstDelivery.messageCache dupFirstDelivery.groupCache
    "group1" "m1" "a.jpg" true 2

/-- Evidence on C1: on the duplicate delivery the upload is skipped as a
non-error and the idempotency cache is untouched, but because
handleFileMessage reports the skip with the same nil it uses for
success, callbackHandler still calls AddUploadedFile: the scope counter
rises from 1 to 2 and the file is recorded a second time, contradicting
the claim that the stats are not modified by a duplicate delivery. -/
theorem duplicate_delivery_increments_stats :
    dupSecondDelivery.uploadAttempted = false
    ∧ dupSecondDelivery.errored = false
    ∧ dupSecondDelivery.messageCache = dupFirstDelivery.messageCache
    ∧ (dupFirstDelivery.groupCache.GetStats "group1").1 = 1
    ∧ (dupSecondDelivery.groupCache.GetStats "group1").1 = 2 :=
  ⟨by decide, by decide, rfl, by decide, by decide⟩

theorem take_append_take (A B : List FileInfo) :
    (A ++ B.take 5).take 5 = (A ++ B).take 5 := by
  rw [List.take_append_eq_append_take, List.take_append_eq_append_take, List.take_take,
    Nat.min_eq_left (Nat.sub_le 5 A.length)]

theorem runScope_counter_aux (ops : List (String × Nat)) :
    ∀ (gc : GroupCache) (s : String),
      ((ops.foldl (fun g p => g.AddUploadedFile s p.1 p.2) gc).GetStats s).1
        = (gc.GetStats s).1 + ops.length := by
  induction ops with
  | nil => intro gc s; simp
  | cons hd tl ih =>
      intro gc s
      simp only [List.foldl_cons, List.length_cons]
      rw [ih, getStats_add_self]
      dsimp only
      omega

theorem runScope_recent_aux (ops : List (String × Nat)) :
    ∀ (gc : GroupCache) (s : String), (gc.GetStats s).2.2.length ≤ 5 →
      ((ops.foldl (fun g p => g.AddUploadedFile s p.1 p.2) gc).GetStats s).2.2
        = ((ops.map (fun p => FileInfo.mk p.1 p.2)).reverse ++ (gc.GetStats s).2.2).take 5 := by
  induction ops with
  | nil =>
      intro gc s h
      simp [List.take_of_length_le h]
  | cons hd tl ih =>
      intro gc s h
      have hself := getStats_add_self gc s hd.1 hd.2
      have h5 : ((gc.AddUploadedFile s hd.1 hd.2).GetStats s).2.2.length ≤ 5 := by
        rw [hself]
        dsimp only
        simp only [List.length_take]
        exact Nat.min_le_left _ _
      simp only [List.foldl_cons, List.map_cons, List.reverse_cons]
      rw [ih _ s h5, hself]
      dsimp only
      rw [List.append_assoc, List.singleton_append]
      exact take_append_take _ _

theorem runMixed_bound_aux (ops : List (String × String × Nat)) :
    ∀ (gc : GroupCache), (∀ sc, (gc.GetStats sc).2.2.length ≤ 5) →
      ∀ sc,
        ((ops.foldl (fun g p => g.AddUploadedFile p.1 p.2.1 p.2.2) gc).GetStats sc).2.2.length
          ≤ 5 := by
  induction ops with
  | nil => intro gc h sc; simpa using h sc
  | cons hd tl ih =>
      intro gc h sc
      simp only [List.foldl_cons]
      refine ih _ (fun sc0 => ?_) sc
      by_cases hsc : sc0 = hd.1
      · subst hsc
        rw [getStats_add_self]
        dsimp only
        simp only [List.length_take]
        exact Nat.min_le_left _ _
      · rw [getStats_add_other _ _ _ _ _ hsc]
        exact h sc0

/-- C3: starting from the fresh store, a sequence of n RecordUpload
calls on one scope leaves that scope with counter n and with the last
min(n,5) files newest first (the reversed call sequence truncated to
five entries); and in every state reachable by any sequence of
RecordUpload calls every scope holds at most 5 recent files. -/
theorem recordUpload_per_scope (ops : List (String × Nat)) (s : String)
    (mops : List (String × String × Nat)) (scope : String) :
    ((runScope ops s).GetStats s).1 = ops.length
    ∧ ((runScope ops s).GetStats s).2.2
        = ((ops.map (fun p => FileInfo.mk p.1 p.2)).reverse).take 5
    ∧ ((runMixed mops).GetStats scope).2.2.length ≤ 5 := by
  have hnew : ∀ sc, NewGroupCache.GetStats sc = (0, 0, []) := by
    intro sc
    simp [GroupCache.GetStats, GroupCache.findStats, NewGroupCache]
  refine ⟨?_, ?_, ?_⟩
  · have := runScope_counter_aux ops NewGroupCache s
    rw [hnew s] at this
    simpa [runScope] using this
  · have := runScope_recent_aux ops NewGroupCache s (by rw [hnew s]; simp)
    rw [hnew s] at this
    simpa [runScope] using this
  · exact runMixed_bound_aux mops NewGroupCache (fun sc => by rw [hnew sc]; simp) scope

theorem mem_keys_setStats (l : List (String × GroupStats)) (k : String) (v : GroupStats)
    (q : String) (hq : q ∈ (setStats l k v).map Prod.fst) :
    q ∈ l.map Prod.fst ∨ q = k := by
  induction l with
  | nil =>
      simp [setStats] at hq
      exact Or.inr hq
  | cons hd tl ih =>
      obtain ⟨k0, v0⟩ := hd
      by_cases h : k0 = k
      · subst h
        simp [setStats] at hq
        rcases hq with h1 | h2
        · exact Or.inr h1
        · exact Or.inl (by simp [h2])
      · rw [show setStats ((k0, v0) :: tl) k v = (k0, v0) :: setStats tl k v from by
            simp [setStats, h]] at hq
        simp only [List.map_cons, List.mem_cons] at hq
        rcases hq with h1 | h2
        · exact Or.inl (by simp [h1])
        · rcases ih h2 with h3 | h4
          · exact Or.inl (by simp only [List.map_cons, List.mem_cons]; exact Or.inr h3)
          · exact Or.inr h4

theorem mem_keys_runMixed (ops : List (String × String × Nat)) :
    ∀ (gc : GroupCache) (q : String),
      q ∈ ((ops.foldl (fun g p => g.AddUploadedFile p.1 p.2.1 p.2.2) gc).stats.map Prod.fst) →
      q ∈ gc.stats.map Prod.fst ∨ q ∈ ops.map (fun p => p.1) := by
  induction ops with
  | nil => intro gc q h; exact Or.inl (by simpa using h)
  | cons hd tl ih =>
      intro gc q h
      simp only [List.foldl_cons] at h
      rcases ih _ q h with h1 | h2
      · simp only [GroupCache.AddUploadedFile] at h1
        rcases mem_keys_setStats _ _ _ _ h1 with hl | hk
        · exact Or.inl hl
        · exact Or.inr (by simp [hk])
      · exact Or.inr (by simp only [List.map_cons, List.mem_cons]; exact Or.inr h2)

theorem findStats_eq_none (gc : GroupCache) (s : String)
    (h : s ∉ gc.stats.map Prod.fst) : gc.findStats s = none := by
  unfold GroupCache.findStats
  have hfind : gc.stats.find? (fun p => p.1 == s) = none := by
    rw [List.find?_eq_none]
    intro p hp hbeq
    exact h (List.mem_map.mpr ⟨p, hp, by simpa using hbeq⟩)
  simp [hfind]

/-- C7: GetStats on a scope never passed to RecordUpload returns the
zero snapshot and the store holds no record for that scope, so the scope
cannot contribute to GetGlobalStats, which folds only over existing
records. The source method is a pure read (RLock plus map lookup, no
insertion), which the model reflects by giving GetStats no state output
at all. -/
theorem getStats_unseen_scope (mops : List (String × String × Nat)) (s : String)
    (h : s ∉ mops.map (fun p => p.1)) :
    (runMixed mops).GetStats s = (0, 0, [])
    ∧ s ∉ (runMixed mops).stats.map Prod.fst := by
  have hkey : s ∉ (runMixed mops).stats.map Prod.fst := by
    intro hmem
    rcases mem_keys_runMixed mops NewGroupCache s hmem with h1 | h2
    · simp [NewGroupCache] at h1
    · exact h h2
  exact ⟨by simp [GroupCache.GetStats, findStats_eq_none _ _ hkey], hkey⟩

/-- Witness for getStats_unseen_scope at concrete inputs. -/
theorem getStats_unseen_scope_witness :
    (("group2" : String)
        ∉ ([("group1", "a.jpg", 1)] : List (String × String × Nat)).map (fun p => p.1))
    ∧ ((runMixed [("group1", "a.jpg", 1)]).GetStats "group2" = (0, 0, [])
      ∧ "group2" ∉ (runMixed [("group1", "a.jpg", 1)]).stats.map Prod.fst) :=
  ⟨by decide, getStats_unseen_scope [("group1", "a.jpg", 1)] "group2" (by decide)⟩

/-- Spec reading of the aggregate counter: the sum of the counters of
all scopes. -/
def specTotalUploads (c : GroupCache) : Nat :=
  (c.stats.map (fun p => p.2.totalUploads)).sum

/-- Spec reading of the aggregate last-upload time: the maximum of the
last-upload times of all scopes (zero when there is no scope). -/
def specMaxLastUpload (c : GroupCache) : Nat :=
  (c.stats.map (fun p => p.2.lastUpload)).foldl max 0

/-- All file records currently held by the store, merged across all
scopes. -/
def allFilesOf (c : GroupCache) : List FileInfo :=
  (c.stats.map (fun p => p.2.recentFiles)).flatten

theorem foldl_counters (l : List (String × GroupStats)) :
    ∀ n : Nat, l.foldl (fun acc p => acc + p.2.totalUploads) n
      = n + (l.map (fun p => p.2.totalUploads)).sum := by
  induction l with
  | nil => intro n; simp
  | cons hd tl ih =>
      intro n
      simp only [List.foldl_cons, List.map_cons, List.sum_cons]
      rw [ih]
      omega

theorem foldl_last (l : List (String × GroupStats)) :
    ∀ n : Nat, l.foldl (fun acc p => if acc < p.2.lastUpload then p.2.lastUpload else acc) n
      = (l.map (fun p => p.2.lastUpload)).foldl max n := by
  induction l with
  | nil => intro n; simp
  | cons hd tl ih =>
      intro n
      simp only [List.foldl_cons, List.map_cons]
      rw [ih]
      congr 1
      rcases Nat.lt_or_ge n hd.2.lastUpload with h | h
      · simp [h, Nat.max_eq_right (Nat.le_of_lt h)]
      · simp [Nat.not_lt.mpr h, Nat.max_eq_left h]

theorem foldl_files (l : List (String × GroupStats)) :
    ∀ acc : List FileInfo, l.foldl (fun a p => a ++ p.2.recentFiles) acc
      = acc ++ (l.map (fun p => p.2.recentFiles)).flatten := by
  induction l with
  | nil => intro acc; simp
  | cons hd tl ih =>
      intro acc
      simp only [List.foldl_cons, List.map_cons, List.flatten_cons]
      rw [ih, List.append_assoc]

/-- The store after the aggregate scenario of the spec: two uploads to
scope group1, one to group2, two to direct, at increasing times. -/
def aggregateScenario : GroupCache :=
  ((((NewGroupCache.AddUploadedFile "group1" "f1" 1).AddUploadedFile "group1" "f2" 2
    ).AddUploadedFile "group2" "f3" 3).AddUploadedFile "direct" "f4" 4
    ).AddUploadedFile "direct" "f5" 5

/-- C4: GetGlobalStats returns the sum of all scope counters, the
maximum last-upload time over all scopes, and the first five entries of
a newest-first sorting of all file records merged across scopes (Go
sort.Slice promises exactly sortedness under the given comparator); in
the concrete scenario with 2 uploads to group1, 1 to group2 and 2 to
direct it reports 5 total uploads and the five files newest first. -/
theorem getGlobalStats_aggregates (c : GroupCache) :
    c.GetGlobalStats.1 = specTotalUploads c
    ∧ c.GetGlobalStats.2.1 = specMaxLastUpload c
    ∧ (∃ l, List.Perm l (allFilesOf c) ∧ List.Sorted fileGE l
        ∧ c.GetGlobalStats.2.2 = l.take 5)
    ∧ aggregateScenario.GetGlobalStats
        = (5, 5,
            [{ name := "f5", timestamp := 5 }, { name := "f4", timestamp := 4 },
             { name := "f3", timestamp := 3 }, { name := "f2", timestamp := 2 },
             { name := "f1", timestamp := 1 }]) := by
  refine ⟨?_, ?_, ?_, ?_⟩
  · simp only [GroupCache.GetGlobalStats, specTotalUploads]
    rw [foldl_counters]
    simp
  · simp only [GroupCache.GetGlobalStats, specMaxLastUpload]
    rw [foldl_last]
  · refine ⟨List.insertionSort fileGE (allFilesOf c),
      List.perm_insertionSort fileGE _, List.sorted_insertionSort fileGE _, ?_⟩
    simp only [GroupCache.GetGlobalStats]
    rw [foldl_files, List.nil_append, if_take_five]
    rfl
  · decide

/-- A store with one upload in scope group1 and one in scope direct:
its global aggregate differs from the direct scope snapshot. -/
def statsCexCache : GroupCache :=
  (NewGroupCache.AddUploadedFile "group1" "a.jpg" 1).AddUploadedFile "direct" "b.jpg" 2

/-- C10: the /stats branch of handleCommand with an empty group id
builds the reply from GetGlobalStats over all scopes, and that result is
not in general the snapshot of the sentinel scope direct under which the
uploads of ungrouped chats are recorded: in statsCexCache the aggregate
counts 2 uploads while the direct scope counts 1. -/
theorem stats_command_empty_group_uses_global (gc : GroupCache) :
    statsForReply gc "" = gc.GetGlobalStats
    ∧ statsForReply statsCexCache "" ≠ statsCexCache.GetStats "direct" := by
  exact ⟨by simp [statsForReply], by decide⟩
